import Mathlib

/-!
Verification of the hermit shell store and deferred file-operation log.

The Rust source (src/config.rs, src/file_operations.rs) is shallowly
embedded here.  Paths are lists of components; a component is either a
valid-text name (`Sum.inl : String`) or an opaque non-text name
(`Sum.inr : Nat`, standing for an OS name that does not decode to text).
The filesystem is an association list from paths to nodes; filesystem
calls from the Rust standard library (`fs::create_dir`, `File::create`,
`fs::remove_file`, ...) are modelled as pure state transformers on it.
-/

deriving instance DecidableEq for Except

namespace Hermit

/-- A path component: either a valid-text name or an opaque non-text name. -/
abbrev Name := String ⊕ Nat

/-- Shorthand for a valid-text path component. -/
def nm (s : String) : Name := Sum.inl s

/-- A filesystem path, as a list of components from the root. -/
abbrev Path := List Name

/-- A filesystem node: directory, regular file with contents, or symlink. -/
inductive Node where
  | dir : Node
  | file (content : String) : Node
  | link (target : Path) : Node
deriving DecidableEq

/-- The filesystem state: an association list from paths to nodes.
The empty path `[]` is the implicit root directory and is never a key. -/
abbrev FS := List (Path × Node)

/-- Look a path up in the filesystem. -/
def lookupFS : FS → Path → Option Node
  | [], _ => none
  | (q, n) :: rest, p => if q = p then some n else lookupFS rest p

/-- Remove every entry for a path from the filesystem. -/
def eraseFS (fs : FS) (p : Path) : FS :=
  fs.filter (fun e => decide (e.1 ≠ p))

/-- Does a path exist (the root `[]` always exists)? -/
def existsFS (fs : FS) (p : Path) : Bool :=
  p.isEmpty || (lookupFS fs p).isSome

/-- Is a path a directory (the root `[]` always is)? -/
def isDirFS (fs : FS) (p : Path) : Bool :=
  p.isEmpty ||
    (match lookupFS fs p with
     | some Node.dir => true
     | _ => false)

/-- Well-formedness: every entry's parent is a directory.  Real
filesystem states reachable from an empty disk satisfy this. -/
def wfFS (fs : FS) : Bool :=
  fs.all (fun e => isDirFS fs e.1.dropLast)

/-- Kinds of I/O errors carried by `Error::IoError` (src/file_operations.rs
lines 17-21); only the distinctions the code observes are modelled. -/
inductive IoErr where
  | notFound
  | alreadyExists
  | isADir
deriving DecidableEq

/-- Errors from the repository-initialization capability (`git2::Error`):
refusing to re-initialize an existing repository (the `no_reinit(true)`
policy of `default_git_opts`, src/file_operations.rs lines 143-148), or an
underlying filesystem failure surfaced by libgit2. -/
inductive GitErr where
  | reinit
  | ioFail
deriving DecidableEq

/-- The error type of src/file_operations.rs lines 17-21: a generic I/O
failure or a repository-initialization failure, as distinct constructors. -/
inductive Error where
  | IoError (e : IoErr)
  | Git2Error (e : GitErr)
deriving DecidableEq

/-- Model of `fs::create_dir`: fails if the target exists or its parent is
not a directory; creates exactly one directory. -/
def createDir (fs : FS) (p : Path) : FS × Except IoErr Unit :=
  if existsFS fs p then (fs, Except.error IoErr.alreadyExists)
  else if isDirFS fs p.dropLast then ((p, Node.dir) :: fs, Except.ok ())
  else (fs, Except.error IoErr.notFound)

/-- Helper for `fs::create_dir_all`: walk the components left to right,
creating each missing ancestor directory. -/
def mkdirAllGo (fs : FS) (pre : Path) : List Name → FS × Except IoErr Unit
  | [] => (fs, Except.ok ())
  | c :: rest =>
    let q := pre ++ [c]
    match lookupFS fs q with
    | some Node.dir => mkdirAllGo fs q rest
    | some _ => (fs, Except.error IoErr.alreadyExists)
    | none => mkdirAllGo ((q, Node.dir) :: fs) q rest

/-- Model of `fs::create_dir_all`: creates all missing ancestors, succeeds
if the target already is a directory, fails if a component exists as a
non-directory. -/
def mkdirAll (fs : FS) (p : Path) : FS × Except IoErr Unit :=
  mkdirAllGo fs [] p

/-- Model of `fs::remove_file`: deletes one file (or symlink); fails on a
directory or a missing target. -/
def removeFile (fs : FS) (p : Path) : FS × Except IoErr Unit :=
  match lookupFS fs p with
  | some Node.dir => (fs, Except.error IoErr.isADir)
  | some _ => (eraseFS fs p, Except.ok ())
  | none => (fs, Except.error IoErr.notFound)

/-- Modelled from the spec: the symlink execution step is absent from
src/src/file_operations.rs (the `link` builder and its `do_op` arm are
commented out at lines 126-128); per the spec, link "creates a symbolic
link at destination pointing at source; fails if destination already
exists". -/
def symlinkOp (fs : FS) (src dst : Path) : FS × Except IoErr Unit :=
  if existsFS fs dst then (fs, Except.error IoErr.alreadyExists)
  else ((dst, Node.link src) :: fs, Except.ok ())

/-- Is a path an existing repository root (it has a `.git` directory)? -/
def isRepoFS (fs : FS) (p : Path) : Bool :=
  isDirFS fs (p ++ [nm ".git"])

/-- Model of `git2::Repository::init_opts` under `default_git_opts`
(`no_reinit(true)`, src/file_operations.rs lines 139-148): fails with a
re-initialization error if the target is already a repository root,
otherwise creates the target directory (and missing ancestors, as libgit2
does) and the repository's `.git` directory. -/
def gitInitOp (fs : FS) (p : Path) : FS × Except GitErr Unit :=
  if isRepoFS fs p then (fs, Except.error GitErr.reinit)
  else
    match (mkdirAll fs p).2 with
    | Except.error _ => (fs, Except.error GitErr.ioFail)
    | Except.ok _ =>
      match (mkdirAll (mkdirAll fs p).1 (p ++ [nm ".git"])).2 with
      | Except.error _ => (fs, Except.error GitErr.ioFail)
      | Except.ok _ =>
        ((mkdirAll (mkdirAll fs p).1 (p ++ [nm ".git"])).1, Except.ok ())

/-- The pending-operation type `Op` of src/file_operations.rs lines 9-15. -/
inductive Op where
  | MkDir (p : Path)
  | MkDirAll (p : Path)
  | GitInit (p : Path)
  | Link (source dest : Path)
  | Remove (p : Path)
deriving DecidableEq

/-- The result type of one operation (`pub type Result`), with failures
converted through the `From` impls into `Error`. -/
abbrev FileOpResult := Except Error Unit

/-- The deferred operation log of src/file_operations.rs lines 62-66.
The `git_init_opts` field always holds `default_git_opts()` (no reinit);
it is folded into `gitInitOp` rather than stored. -/
structure FileOperations where
  root : Path
  operations : List Op

/-- Embeds `FileOperations::rooted_at` (src/file_operations.rs lines 95-101). -/
def FileOperations.rooted_at (p : Path) : FileOperations :=
  { root := p, operations := [] }

/-- Builder `create_dir` generated by the `file_operations!` macro
(src/file_operations.rs line 118): records `Op::MkDir(self.root.join(dir))`
and performs no I/O. -/
def FileOperations.create_dir (f : FileOperations) (dir : Path) : FileOperations :=
  { f with operations := f.operations ++ [Op.MkDir (f.root ++ dir)] }

/-- Builder `create_dir_all` (src/file_operations.rs line 122). -/
def FileOperations.create_dir_all (f : FileOperations) (dir : Path) : FileOperations :=
  { f with operations := f.operations ++ [Op.MkDirAll (f.root ++ dir)] }

/-- Builder `remove` (src/file_operations.rs line 130). -/
def FileOperations.remove (f : FileOperations) (file : Path) : FileOperations :=
  { f with operations := f.operations ++ [Op.Remove (f.root ++ file)] }

/-- Builder `create_git_repo` (src/file_operations.rs line 134). -/
def FileOperations.create_git_repo (f : FileOperations) (dir : Path) : FileOperations :=
  { f with operations := f.operations ++ [Op.GitInit (f.root ++ dir)] }

/-- Modelled from the spec: the `link` builder is commented out in
src/src/file_operations.rs (lines 126-128); per the spec it "appends one
pending operation in call order" and performs no I/O, recording the source
verbatim and the root-joined destination as in the commented constructor
`Op::Link(source.as_ref().to_path_buf(), self.root.join(dest))`. -/
def FileOperations.link (f : FileOperations) (source dest : Path) : FileOperations :=
  { f with operations := f.operations ++ [Op.Link source (f.root ++ dest)] }

/-- Embeds `do_op` as generated by the `file_operations!` macro
(src/file_operations.rs lines 82-89): match the stored operation and run
its `$run_expr` on the destructured (stored, root-joined) payload; errors
convert into `Error` via the `From` impls (the `try!`).  The `Op::Link`
arm is modelled from the spec (its source is commented out). -/
def doOp (fs : FS) : Op → FS × FileOpResult
  | Op.MkDir d =>
    let r := createDir fs d
    (r.1, r.2.mapError Error.IoError)
  | Op.MkDirAll d =>
    let r := mkdirAll fs d
    (r.1, r.2.mapError Error.IoError)
  | Op.Remove p =>
    let r := removeFile fs p
    (r.1, r.2.mapError Error.IoError)
  | Op.GitInit d =>
    let r := gitInitOp fs d
    (r.1, r.2.mapError Error.Git2Error)
  | Op.Link s d =>
    let r := symlinkOp fs s d
    (r.1, r.2.mapError Error.IoError)

/-- Execute a list of operations in order, threading the filesystem state
and collecting one outcome per operation; this is the
`ops.into_iter().map(|op| self.do_op(op)).collect()` of `commit`. -/
def commitAux (fs : FS) : List Op → FS × List FileOpResult
  | [] => (fs, [])
  | op :: ops =>
    let r := doOp fs op
    let rest := commitAux r.1 ops
    (rest.1, r.2 :: rest.2)

/-- Embeds `FileOperations::commit` (src/file_operations.rs lines 103-111):
drains the queue and maps `do_op` over it in order.  (The source also
stuffs a dummy `Op::MkDir(PathBuf::new())` into the replaced queue; that
queue is never executed and does not affect the returned results.) -/
def FileOperations.commit (f : FileOperations) (fs : FS) : FS × List FileOpResult :=
  commitAux fs f.operations

/-- The filesystem state after executing a list of operations. -/
def applyOps (fs : FS) (ops : List Op) : FS :=
  (commitAux fs ops).1

/-- An enqueue request, naming one builder call and its arguments. -/
inductive Req where
  | mkdir (p : Path)
  | mkdirAll (p : Path)
  | remove (p : Path)
  | link (source dest : Path)
  | gitInit (p : Path)
deriving DecidableEq

/-- Apply one enqueue request to the log via the corresponding builder. -/
def applyReq (f : FileOperations) : Req → FileOperations
  | Req.mkdir p => f.create_dir p
  | Req.mkdirAll p => f.create_dir_all p
  | Req.remove p => f.remove p
  | Req.link s d => f.link s d
  | Req.gitInit p => f.create_git_repo p

/-- Apply a whole sequence of enqueue calls, left to right. -/
def enqueueAll (f : FileOperations) (rs : List Req) : FileOperations :=
  rs.foldl applyReq f

/-- The pending operation a request records, given the log's root. -/
def reqToOp (root : Path) : Req → Op
  | Req.mkdir p => Op.MkDir (root ++ p)
  | Req.mkdirAll p => Op.MkDirAll (root ++ p)
  | Req.remove p => Op.Remove (root ++ p)
  | Req.link s d => Op.Link s (root ++ d)
  | Req.gitInit p => Op.GitInit (root ++ p)

/-- The disk-backed store of src/config.rs lines 32-37: the managed root
and the cached active-profile ("current shell") name. -/
structure FsConfig where
  root_path : Path
  current_shell : Option String
deriving DecidableEq

/-- Embeds `config_path` (src/config.rs lines 48-50): the marker file path. -/
def config_path (root : Path) : Path :=
  root ++ [nm "current_shell"]

/-- Embeds `read_shell_from_path` (src/config.rs lines 39-46): open the marker
file and read its whole contents as text. -/
def read_shell_from_path (fs : FS) (p : Path) : Except IoErr String :=
  match lookupFS fs p with
  | some (Node.file c) => Except.ok c
  | some _ => Except.error IoErr.isADir
  | none => Except.error IoErr.notFound

/-- Embeds `FsConfig::new` (src/config.rs lines 52-59): eagerly load the marker
file, tolerating failure (`.ok()` turns the result into an option). -/
def FsConfig.new (fs : FS) (root : Path) : FsConfig :=
  { root_path := root
    current_shell := (read_shell_from_path fs (config_path root)).toOption }

/-- Embeds `Config::shell_root_path` (src/config.rs lines 14-16). -/
def FsConfig.shell_root_path (cfg : FsConfig) : Path :=
  cfg.root_path ++ [nm "shells"]

/-- Embeds `Config::current_shell_path` (src/config.rs lines 20-23). -/
def FsConfig.current_shell_path (cfg : FsConfig) : Option Path :=
  cfg.current_shell.map (fun name => cfg.shell_root_path ++ [nm name])

/-- Model of `File::create`: truncate an existing file, or create a new
empty one when the parent directory exists; fails on a directory target or
a missing parent. -/
def fileCreate (fs : FS) (p : Path) : Except IoErr FS :=
  match lookupFS fs p with
  | some Node.dir => Except.error IoErr.isADir
  | some _ => Except.ok ((p, Node.file "") :: eraseFS fs p)
  | none =>
    if isDirFS fs p.dropLast then Except.ok ((p, Node.file "") :: fs)
    else Except.error IoErr.notFound

/-- Model of `Write::write_all` on a freshly created file: replace the
file's contents. -/
def writeAll (fs : FS) (p : Path) (content : String) : Except IoErr FS :=
  match lookupFS fs p with
  | some (Node.file _) => Except.ok ((p, Node.file content) :: eraseFS fs p)
  | _ => Except.error IoErr.notFound

/-- Embeds `FsConfig::set_current_shell_name` (src/config.rs lines 79-87):
create/truncate the marker file, write the name, and only then update the
cached name; each `?` propagates the I/O error, leaving the cache as it
was.  Returns the (possibly unchanged) config, the filesystem, and the
error if any. -/
def FsConfig.set_current_shell_name (cfg : FsConfig) (fs : FS) (name : String) :
    FsConfig × FS × Option IoErr :=
  match fileCreate fs (config_path cfg.root_path) with
  | Except.error e => (cfg, fs, some e)
  | Except.ok fs1 =>
    match writeAll fs1 (config_path cfg.root_path) name with
    | Except.error e => (cfg, fs1, some e)
    | Except.ok fs2 =>
      ({ cfg with current_shell := some name }, fs2, none)

/-- Embeds `FsConfig::shell_exists` (src/config.rs lines 89-92):
`shell_root_path().join(name).is_dir()`. -/
def FsConfig.shell_exists (cfg : FsConfig) (fs : FS) (name : String) : Bool :=
  isDirFS fs (cfg.shell_root_path ++ [nm name])

/-- The valid-text name of a directory entry lying directly under `sr`,
if the given filesystem entry is such (a directory whose path is `sr`
followed by one valid-text component). -/
def profChild (sr : Path) (e : Path × Node) : Option String :=
  match e.1.reverse with
  | Sum.inl s :: rest =>
    if e.2 = Node.dir ∧ rest.reverse = sr then some s else none
  | _ => none

/-- Modelled from the spec: `list_profiles` is not in src/ (it lives in
the absent `hermit` module; src/config.rs has no listing function).  Per
the spec, it "enumerates direct children of `profiles_root()`; for each,
includes it iff it is a directory and its name decodes to valid text;
returns a sorted sequence; fails with an I/O error only if the profiles
root cannot be read at all — individual unreadable children are skipped,
not fatal". -/
def list_profiles (cfg : FsConfig) (fs : FS) : Except IoErr (List String) :=
  if isDirFS fs cfg.shell_root_path then
    Except.ok (List.insertionSort (fun a b => a ≤ b)
      (fs.filterMap (profChild cfg.shell_root_path)))
  else Except.error IoErr.notFound

/-- Strip `pre` off the front of `p`; this is `Path::strip_prefix`,
returning nothing when `pre` is not a prefix of `p`. -/
def stripPre (pre p : Path) : Option Path :=
  if pre <+: p then some (p.drop pre.length) else none

/-- The readable entries yielded by `WalkDir::new(root).min_depth(1)`
without following links: every filesystem entry strictly below the walk
root, as an absolute path. -/
def walkEntries (fs : FS) (root : Path) : List Path :=
  fs.filterMap (fun e =>
    if root <+: e.1 ∧ e.1 ≠ root then some e.1 else none)

/-- The `Files` wrapper of src/config.rs lines 129-151: optionally a
walker root paired with the prefix path kept for stripping. -/
structure Files where
  inner : Option (Path × Path)
deriving DecidableEq

/-- Embeds `Files::new` (src/config.rs lines 141-150): both the `WalkDir` root
and the strip path come from the same `shell_path`. -/
def Files.new (shell_path : Option Path) : Files :=
  ⟨shell_path.map (fun p => (p, p))⟩

/-- The sequence produced by `FilesIter` (src/config.rs lines 100-127):
nothing when no walker is present; otherwise each yielded walk entry is
stripped of the stored path (the source unwraps the strip; here a failed
strip would simply be dropped by `filterMap`). -/
def filesList (fs : FS) (f : Files) : List Path :=
  match f.inner with
  | none => []
  | some (walkRoot, prePath) =>
    (walkEntries fs walkRoot).filterMap (stripPre prePath)

/-- Embeds `FsConfig::shell_files` (src/config.rs lines 94-96): the `_name`
argument is ignored; the walk is over `current_shell_path()`. -/
def FsConfig.shell_files (cfg : FsConfig) (_name : String) : Files :=
  Files.new cfg.current_shell_path

/-! ### Helper lemmas -/

theorem lookupFS_some_mem {fs : FS} {p : Path} {v : Node}
    (h : lookupFS fs p = some v) : (p, v) ∈ fs := by
  induction fs with
  | nil => simp [lookupFS] at h
  | cons e rest ih =>
    obtain ⟨q, n⟩ := e
    by_cases hq : q = p
    · subst hq
      simp [lookupFS] at h
      simp [h]
    · simp only [lookupFS, if_neg hq] at h
      exact List.mem_cons_of_mem _ (ih h)

theorem commitAux_snd_length (ops : List Op) :
    ∀ fs : FS, ((commitAux fs ops).2).length = ops.length := by
  induction ops with
  | nil => intro fs; rfl
  | cons op ops ih => intro fs; simp [commitAux, ih]

theorem applyOps_cons (fs : FS) (op : Op) (ops : List Op) :
    applyOps fs (op :: ops) = applyOps (doOp fs op).1 ops := rfl

theorem commitAux_snd_getElem (ops : List Op) :
    ∀ (fs : FS) (i : Nat),
      (commitAux fs ops).2[i]? =
        (ops[i]?).map (fun op => (doOp (applyOps fs (ops.take i)) op).2) := by
  induction ops with
  | nil => intro fs i; simp [commitAux]
  | cons op ops ih =>
    intro fs i
    cases i with
    | zero => simp [commitAux, applyOps]
    | succ j =>
      simp only [commitAux, List.getElem?_cons_succ, List.take_succ_cons,
        applyOps_cons]
      exact ih (doOp fs op).1 j

theorem applyReq_root (f : FileOperations) (r : Req) :
    (applyReq f r).root = f.root := by
  cases r <;> rfl

theorem applyReq_operations (f : FileOperations) (r : Req) :
    (applyReq f r).operations = f.operations ++ [reqToOp f.root r] := by
  cases r <;> rfl

theorem enqueueAll_operations (rs : List Req) :
    ∀ f : FileOperations,
      (enqueueAll f rs).operations = f.operations ++ rs.map (reqToOp f.root) := by
  induction rs with
  | nil => intro f; simp [enqueueAll]
  | cons r rs ih =>
    intro f
    show (enqueueAll (applyReq f r) rs).operations = _
    rw [ih (applyReq f r), applyReq_operations, applyReq_root]
    simp

theorem lookupFS_eraseFS (fs : FS) (p : Path) :
    lookupFS (eraseFS fs p) p = none := by
  induction fs with
  | nil => rfl
  | cons e rest ih =>
    obtain ⟨q, n⟩ := e
    by_cases hq : q = p
    · simpa [eraseFS, List.filter_cons, hq] using ih
    · simpa [eraseFS, List.filter_cons, hq, lookupFS] using ih

theorem mkdirAllGo_ok_isDir (rest : List Name) :
    ∀ (fs : FS) (pre : Path), isDirFS fs pre = true →
      (mkdirAllGo fs pre rest).2 = Except.ok () →
      isDirFS (mkdirAllGo fs pre rest).1 (pre ++ rest) = true := by
  induction rest with
  | nil =>
    intro fs pre hpre _
    simpa [mkdirAllGo] using hpre
  | cons c rest ih =>
    intro fs pre hpre hok
    have hsplit : pre ++ c :: rest = (pre ++ [c]) ++ rest := by simp
    simp only [mkdirAllGo] at hok ⊢
    rcases hq : lookupFS fs (pre ++ [c]) with _ | node
    · rw [hq] at hok
      have hdq : isDirFS ((pre ++ [c], Node.dir) :: fs) (pre ++ [c]) = true := by
        simp [isDirFS, lookupFS]
      rw [hsplit]
      exact ih ((pre ++ [c], Node.dir) :: fs) (pre ++ [c]) hdq hok
    · cases node with
      | dir =>
        rw [hq] at hok
        have hdq : isDirFS fs (pre ++ [c]) = true := by
          simp [isDirFS, hq]
        rw [hsplit]
        exact ih fs (pre ++ [c]) hdq hok
      | file s =>
        rw [hq] at hok
        exact Except.noConfusion hok
      | link t =>
        rw [hq] at hok
        exact Except.noConfusion hok

theorem mkdirAll_ok_isDir (fs : FS) (p : Path)
    (hok : (mkdirAll fs p).2 = Except.ok ()) :
    isDirFS (mkdirAll fs p).1 p = true := by
  have h := mkdirAllGo_ok_isDir p fs [] (by simp [isDirFS]) hok
  simpa using h

theorem gitInitOp_ok_isRepo (fs : FS) (p : Path) :
    (gitInitOp fs p).2 = Except.ok () →
    isRepoFS (gitInitOp fs p).1 p = true := by
  unfold gitInitOp
  rcases hrep : isRepoFS fs p with _ | _
  · simp only [Bool.false_eq_true, if_false]
    rcases hm1 : (mkdirAll fs p).2 with e1 | u1
    · intro hok
      exact Except.noConfusion hok
    · rcases hm2 : (mkdirAll (mkdirAll fs p).1 (p ++ [nm ".git"])).2 with e2 | u2
      · intro hok
        exact Except.noConfusion hok
      · intro _
        have hd := mkdirAll_ok_isDir (mkdirAll fs p).1 (p ++ [nm ".git"])
          (by rw [hm2])
        simpa [isRepoFS] using hd
  · simp only [if_true]
    intro hok
    exact Except.noConfusion hok

/-! ### Claim theorems -/

/-- C1: for every sequence of enqueue calls, `commit` returns exactly one
outcome per enqueued operation, in enqueue order, and the i-th outcome is
the result of attempting the i-th operation on the state left by the
first i operations — computed irrespective of whether any earlier
operation failed (no short-circuit, no rollback). -/
theorem commit_outcomes_one_per_enqueue (root : Path) (fs : FS) (rs : List Req) :
    ((enqueueAll (FileOperations.rooted_at root) rs).commit fs).2.length = rs.length ∧
    ∀ i : Nat,
      ((enqueueAll (FileOperations.rooted_at root) rs).commit fs).2[i]? =
        ((rs.map (reqToOp root))[i]?).map
          (fun op => (doOp (applyOps fs ((rs.map (reqToOp root)).take i)) op).2) := by
  have hops : (enqueueAll (FileOperations.rooted_at root) rs).operations
      = rs.map (reqToOp root) := by
    have h := enqueueAll_operations rs (FileOperations.rooted_at root)
    simpa [FileOperations.rooted_at] using h
  constructor
  · rw [FileOperations.commit, hops, commitAux_snd_length, List.length_map]
  · intro i
    rw [FileOperations.commit, hops, commitAux_snd_getElem]

/-- C2 counterexample: with the log rooted at `h` and `create_dir(d)`
enqueued over a filesystem where only the directory `h` exists, commit
succeeds and creates the directory at the root-joined recorded path
`h/d` — not at the bare caller-supplied path `d`, which the claim says the
execution should resolve; so the claim is false at this input. -/
theorem create_dir_executes_at_recorded_path_counterexample :
    ((((FileOperations.rooted_at [nm "h"]).create_dir [nm "d"]).commit
        [([nm "h"], Node.dir)]).2 = [Except.ok ()]) ∧
    lookupFS ((((FileOperations.rooted_at [nm "h"]).create_dir [nm "d"]).commit
        [([nm "h"], Node.dir)]).1) [nm "d"] = none ∧
    lookupFS ((((FileOperations.rooted_at [nm "h"]).create_dir [nm "d"]).commit
        [([nm "h"], Node.dir)]).1) [nm "h", nm "d"] = some Node.dir := by
  decide

/-- C2 (amended): every pending operation records the root-joined path —
each of the five builders appends its `Op` carrying `self.root.join(...)`
— and at commit time `do_op` executes against that same recorded
root-joined path: each operation kind's effect lands at the recorded path
(directory created there, directory tree ensured there, file removed
there, repository initialized there, symlink created there), not at the
bare caller-supplied path. -/
theorem ops_record_and_execute_root_joined
    (f : FileOperations) (p source : Path) (fs : FS) :
    ((f.create_dir p).operations = f.operations ++ [Op.MkDir (f.root ++ p)] ∧
      (f.create_dir_all p).operations = f.operations ++ [Op.MkDirAll (f.root ++ p)] ∧
      (f.remove p).operations = f.operations ++ [Op.Remove (f.root ++ p)] ∧
      (f.create_git_repo p).operations = f.operations ++ [Op.GitInit (f.root ++ p)] ∧
      (f.link source p).operations = f.operations ++ [Op.Link source (f.root ++ p)]) ∧
    (existsFS fs (f.root ++ p) = false →
      isDirFS fs (f.root ++ p).dropLast = true →
      doOp fs (Op.MkDir (f.root ++ p)) =
        ((f.root ++ p, Node.dir) :: fs, Except.ok ())) ∧
    ((doOp fs (Op.MkDirAll (f.root ++ p))).2 = Except.ok () →
      isDirFS (doOp fs (Op.MkDirAll (f.root ++ p))).1 (f.root ++ p) = true) ∧
    (∀ c : String, lookupFS fs (f.root ++ p) = some (Node.file c) →
      doOp fs (Op.Remove (f.root ++ p)) =
        (eraseFS fs (f.root ++ p), Except.ok ()) ∧
      lookupFS (doOp fs (Op.Remove (f.root ++ p))).1 (f.root ++ p) = none) ∧
    ((doOp fs (Op.GitInit (f.root ++ p))).2 = Except.ok () →
      isRepoFS (doOp fs (Op.GitInit (f.root ++ p))).1 (f.root ++ p) = true) ∧
    (existsFS fs (f.root ++ p) = false →
      doOp fs (Op.Link source (f.root ++ p)) =
        ((f.root ++ p, Node.link source) :: fs, Except.ok ())) := by
  refine ⟨⟨rfl, rfl, rfl, rfl, rfl⟩, ?_, ?_, ?_, ?_, ?_⟩
  · intro hnew hparent
    simp [doOp, createDir, hnew, hparent, Except.mapError]
  · intro hok
    simp only [doOp] at hok ⊢
    rcases hm : (mkdirAll fs (f.root ++ p)).2 with e | u
    · rw [hm] at hok
      exact Except.noConfusion hok
    · obtain rfl : u = () := rfl
      exact mkdirAll_ok_isDir fs (f.root ++ p) hm
  · intro c hc
    refine ⟨by simp [doOp, removeFile, hc, Except.mapError], ?_⟩
    have h : (doOp fs (Op.Remove (f.root ++ p))).1 = eraseFS fs (f.root ++ p) := by
      simp [doOp, removeFile, hc]
    rw [h]
    exact lookupFS_eraseFS fs (f.root ++ p)
  · intro hok
    simp only [doOp] at hok ⊢
    have h2 : (gitInitOp fs (f.root ++ p)).2 = Except.ok () := by
      rcases hg : (gitInitOp fs (f.root ++ p)).2 with e | u
      · rw [hg] at hok
        exact Except.noConfusion hok
      · rfl
    exact gitInitOp_ok_isRepo fs (f.root ++ p) h2
  · intro hfree
    simp [doOp, symlinkOp, hfree, Except.mapError]

/-- C2 witness: every execution conjunct of the amended theorem applied
at concrete inputs (create over an existing parent; recursive create;
remove of an existing file; repository init on a fresh path; link to a
free destination), each effect landing at the root-joined path. -/
theorem ops_root_joined_witness :
    (existsFS [([nm "h"], Node.dir)] ([nm "h"] ++ [nm "d"]) = false ∧
      doOp [([nm "h"], Node.dir)] (Op.MkDir ([nm "h"] ++ [nm "d"])) =
        (([nm "h"] ++ [nm "d"], Node.dir) :: [([nm "h"], Node.dir)], Except.ok ())) ∧
    ((doOp [([nm "h"], Node.dir)] (Op.MkDirAll ([nm "h"] ++ [nm "d"]))).2 =
        Except.ok () ∧
      isDirFS (doOp [([nm "h"], Node.dir)] (Op.MkDirAll ([nm "h"] ++ [nm "d"]))).1
        ([nm "h"] ++ [nm "d"]) = true) ∧
    (lookupFS [([nm "h", nm "d"], Node.file "z")] ([nm "h"] ++ [nm "d"]) =
        some (Node.file "z") ∧
      lookupFS (doOp [([nm "h", nm "d"], Node.file "z")]
          (Op.Remove ([nm "h"] ++ [nm "d"]))).1 ([nm "h"] ++ [nm "d"]) = none) ∧
    ((doOp [([nm "h"], Node.dir)] (Op.GitInit ([nm "h"] ++ [nm "d"]))).2 =
        Except.ok () ∧
      isRepoFS (doOp [([nm "h"], Node.dir)] (Op.GitInit ([nm "h"] ++ [nm "d"]))).1
        ([nm "h"] ++ [nm "d"]) = true) ∧
    (existsFS [([nm "h"], Node.dir)] ([nm "h"] ++ [nm "d"]) = false ∧
      doOp [([nm "h"], Node.dir)] (Op.Link [nm "s"] ([nm "h"] ++ [nm "d"])) =
        (([nm "h"] ++ [nm "d"], Node.link [nm "s"]) :: [([nm "h"], Node.dir)],
          Except.ok ())) :=
  ⟨⟨by decide,
      (ops_record_and_execute_root_joined (FileOperations.rooted_at [nm "h"])
        [nm "d"] [nm "s"] [([nm "h"], Node.dir)]).2.1 (by decide) (by decide)⟩,
    ⟨by decide,
      (ops_record_and_execute_root_joined (FileOperations.rooted_at [nm "h"])
        [nm "d"] [nm "s"] [([nm "h"], Node.dir)]).2.2.1 (by decide)⟩,
    ⟨by decide,
      ((ops_record_and_execute_root_joined (FileOperations.rooted_at [nm "h"])
        [nm "d"] [nm "s"] [([nm "h", nm "d"], Node.file "z")]).2.2.2.1 "z"
          (by decide)).2⟩,
    ⟨by decide,
      (ops_record_and_execute_root_joined (FileOperations.rooted_at [nm "h"])
        [nm "d"] [nm "s"] [([nm "h"], Node.dir)]).2.2.2.2.1 (by decide)⟩,
    ⟨by decide,
      (ops_record_and_execute_root_joined (FileOperations.rooted_at [nm "h"])
        [nm "d"] [nm "s"] [([nm "h"], Node.dir)]).2.2.2.2.2 (by decide)⟩⟩

/-- C7: initializing a repository over an existing repository root fails,
the failure is the repository-initialization error kind (a `Git2Error`,
distinguishable by constructor from every generic `IoError`), and two
initialize-repository operations on the same path committed together
yield outcomes `[Ok, Err(repository-init failure)]`. -/
theorem git_init_reinit_error (fs : FS) (p : Path)
    (hrepo : isRepoFS fs p = true) :
    doOp fs (Op.GitInit p) = (fs, Except.error (Error.Git2Error GitErr.reinit)) ∧
    (∀ e : IoErr, Error.Git2Error GitErr.reinit ≠ Error.IoError e) ∧
    ((((FileOperations.rooted_at []).create_git_repo [nm "r"]).create_git_repo
        [nm "r"]).commit []).2 =
      [Except.ok (), Except.error (Error.Git2Error GitErr.reinit)] := by
  refine ⟨?_, fun e h => Error.noConfusion h, by decide⟩
  simp [doOp, gitInitOp, hrepo, Except.mapError]

/-- C7 witness: the theorem applied to a filesystem that already holds a
repository at `r`. -/
theorem git_init_reinit_witness :
    isRepoFS [([nm "r", nm ".git"], Node.dir), ([nm "r"], Node.dir)] [nm "r"] = true ∧
    doOp [([nm "r", nm ".git"], Node.dir), ([nm "r"], Node.dir)] (Op.GitInit [nm "r"]) =
      ([([nm "r", nm ".git"], Node.dir), ([nm "r"], Node.dir)],
        Except.error (Error.Git2Error GitErr.reinit)) :=
  ⟨by decide,
    (git_init_reinit_error [([nm "r", nm ".git"], Node.dir), ([nm "r"], Node.dir)]
      [nm "r"] (by decide)).1⟩

/-- C9: `link(source, dest)` appends exactly one pending link operation
(performing no filesystem change — the builder does not even consult the
filesystem), and committing that operation creates a symbolic link at the
recorded destination pointing at the source, failing exactly when the
destination already exists. -/
theorem link_enqueues_and_commit_symlinks
    (f : FileOperations) (source dest : Path) (fs : FS) :
    (f.link source dest).operations =
      f.operations ++ [Op.Link source (f.root ++ dest)] ∧
    (existsFS fs (f.root ++ dest) = false →
      doOp fs (Op.Link source (f.root ++ dest)) =
        ((f.root ++ dest, Node.link source) :: fs, Except.ok ())) ∧
    (existsFS fs (f.root ++ dest) = true →
      doOp fs (Op.Link source (f.root ++ dest)) =
        (fs, Except.error (Error.IoError IoErr.alreadyExists))) := by
  refine ⟨rfl, ?_, ?_⟩
  · intro hfree
    simp [doOp, symlinkOp, hfree, Except.mapError]
  · intro hexists
    simp [doOp, symlinkOp, hexists, Except.mapError]

/-- C9 witness: both commit branches of the theorem at concrete inputs
(destination free, then destination occupied). -/
theorem link_commit_witness :
    (existsFS [] ([] ++ [nm "b"]) = false ∧
      doOp [] (Op.Link [nm "a"] ([] ++ [nm "b"])) =
        (([] ++ [nm "b"], Node.link [nm "a"]) :: [], Except.ok ())) ∧
    (existsFS [([nm "b"], Node.dir)] ([] ++ [nm "b"]) = true ∧
      doOp [([nm "b"], Node.dir)] (Op.Link [nm "a"] ([] ++ [nm "b"])) =
        ([([nm "b"], Node.dir)], Except.error (Error.IoError IoErr.alreadyExists))) :=
  ⟨⟨by decide,
      (link_enqueues_and_commit_symlinks (FileOperations.rooted_at [])
        [nm "a"] [nm "b"] []).2.1 (by decide)⟩,
    ⟨by decide,
      (link_enqueues_and_commit_symlinks (FileOperations.rooted_at [])
        [nm "a"] [nm "b"] [([nm "b"], Node.dir)]).2.2 (by decide)⟩⟩

/-- C4: for every path yielded by the active-profile walk, stripping the
walk root as a prefix succeeds (the source's unwrap never panics),
because `Files::new` stores the identical path as both the walk root and
the strip path. -/
theorem files_walk_strip_always_succeeds (fs : FS) (sp : Option Path)
    (wr pp p : Path)
    (hinner : (Files.new sp).inner = some (wr, pp))
    (hmem : p ∈ walkEntries fs wr) :
    (stripPre pp p).isSome = true := by
  have hsame : wr = pp := by
    cases sp with
    | none => simp [Files.new] at hinner
    | some q =>
      simp [Files.new] at hinner
      rw [← hinner.1, ← hinner.2]
  have hpre : wr <+: p := by
    unfold walkEntries at hmem
    rw [List.mem_filterMap] at hmem
    obtain ⟨e, _, he⟩ := hmem
    by_cases hc : wr <+: e.1 ∧ e.1 ≠ wr
    · rw [if_pos hc] at he
      cases he
      exact hc.1
    · rw [if_neg hc] at he
      cases he
  rw [← hsame]
  simp [stripPre, hpre]

/-- C4 witness: the theorem applied to a profile directory holding one
file. -/
theorem files_walk_strip_witness :
    (Files.new (some [nm "s"])).inner = some ([nm "s"], [nm "s"]) ∧
    walkEntries [([nm "s", nm "f"], Node.file "")] [nm "s"] = [[nm "s", nm "f"]] ∧
    (stripPre [nm "s"] [nm "s", nm "f"]).isSome = true :=
  ⟨by decide, by decide,
    files_walk_strip_always_succeeds [([nm "s", nm "f"], Node.file "")]
      (some [nm "s"]) [nm "s"] [nm "s"] [nm "s", nm "f"] (by decide)
      (by
        have h : walkEntries [([nm "s", nm "f"], Node.file "")] [nm "s"]
            = [[nm "s", nm "f"]] := by decide
        rw [h]
        exact List.mem_singleton.mpr rfl)⟩

/-- C10: `shell_files` ignores its profile-name argument entirely: any two
names produce the same walker, namely the one over the currently active
profile's path, and when no profile is active the produced sequence is
empty. -/
theorem shell_files_ignores_profile_name (cfg : FsConfig) (fs : FS) (m n : String) :
    cfg.shell_files m = cfg.shell_files n ∧
    filesList fs (cfg.shell_files m) =
      filesList fs (Files.new cfg.current_shell_path) ∧
    (cfg.current_shell = none → filesList fs (cfg.shell_files m) = []) := by
  refine ⟨rfl, rfl, ?_⟩
  intro h
  simp [FsConfig.shell_files, FsConfig.current_shell_path, h, Files.new, filesList]

/-- C10 witness: the no-active-profile branch of the theorem at a
concrete store. -/
theorem shell_files_ignores_name_witness :
    (FsConfig.mk [nm "r"] none).current_shell = none ∧
    filesList [] ((FsConfig.mk [nm "r"] none).shell_files "a") = [] :=
  ⟨rfl, (shell_files_ignores_profile_name (FsConfig.mk [nm "r"] none) [] "a" "b").2.2 rfl⟩

/-- Helper: when `set_current_shell_name` reports no error, the marker
file in the resulting filesystem holds exactly the written name. -/
theorem set_ok_marker_lookup (cfg : FsConfig) (fs : FS) (name : String)
    (hok : (cfg.set_current_shell_name fs name).2.2 = none) :
    lookupFS (cfg.set_current_shell_name fs name).2.1 (config_path cfg.root_path)
      = some (Node.file name) := by
  rcases h1 : fileCreate fs (config_path cfg.root_path) with e | fs1
  · simp [FsConfig.set_current_shell_name, h1] at hok
  · rcases h2 : writeAll fs1 (config_path cfg.root_path) name with e | fs2
    · simp [FsConfig.set_current_shell_name, h1, h2] at hok
    · simp only [FsConfig.set_current_shell_name, h1, h2]
      unfold writeAll at h2
      rcases h3 : lookupFS fs1 (config_path cfg.root_path) with _ | node
      · rw [h3] at h2
        simp at h2
      · rw [h3] at h2
        cases node with
        | dir => simp at h2
        | link t => simp at h2
        | file c =>
          simp only [Except.ok.injEq] at h2
          rw [← h2]
          simp [lookupFS]

/-- C5: setting the active profile to `name` and then constructing a
fresh store over the same root (re-reading the marker file from the
resulting filesystem) yields the active profile `name` exactly. -/
theorem set_then_fresh_load_roundtrip (cfg : FsConfig) (fs : FS) (name : String)
    (hok : (cfg.set_current_shell_name fs name).2.2 = none) :
    (FsConfig.new (cfg.set_current_shell_name fs name).2.1 cfg.root_path).current_shell
      = some name := by
  have h := set_ok_marker_lookup cfg fs name hok
  simp [FsConfig.new, read_shell_from_path, h, Except.toOption]

/-- C5 witness: the round trip at a concrete empty root. -/
theorem set_then_fresh_load_witness :
    ((FsConfig.mk [] none).set_current_shell_name [] "x").2.2 = none ∧
    (FsConfig.new ((FsConfig.mk [] none).set_current_shell_name [] "x").2.1
        []).current_shell = some "x" :=
  ⟨by decide, set_then_fresh_load_roundtrip (FsConfig.mk [] none) [] "x" (by decide)⟩

/-- C6: if `set_current_shell_name` fails, it returns an I/O error and
the cached in-memory active profile is exactly what it was before the
call; the cached name becomes the new name only when the write
succeeds. -/
theorem set_failure_leaves_cache_unchanged (cfg : FsConfig) (fs : FS) (name : String) :
    (∀ e : IoErr, (cfg.set_current_shell_name fs name).2.2 = some e →
      (cfg.set_current_shell_name fs name).1 = cfg) ∧
    ((cfg.set_current_shell_name fs name).2.2 = none →
      (cfg.set_current_shell_name fs name).1 =
        { cfg with current_shell := some name }) := by
  rcases h1 : fileCreate fs (config_path cfg.root_path) with e | fs1
  · simp [FsConfig.set_current_shell_name, h1]
  · rcases h2 : writeAll fs1 (config_path cfg.root_path) name with e | fs2
    · simp [FsConfig.set_current_shell_name, h1, h2]
    · simp [FsConfig.set_current_shell_name, h1, h2]

/-- C6 witness: a failing call (the root directory `r` is missing, so the
marker file cannot be created) leaves the cached name untouched. -/
theorem set_failure_witness :
    ((FsConfig.mk [nm "r"] (some "old")).set_current_shell_name [] "new").2.2 =
      some IoErr.notFound ∧
    ((FsConfig.mk [nm "r"] (some "old")).set_current_shell_name [] "new").1 =
      FsConfig.mk [nm "r"] (some "old") :=
  ⟨by decide,
    (set_failure_leaves_cache_unchanged (FsConfig.mk [nm "r"] (some "old")) [] "new").1
      IoErr.notFound (by decide)⟩

/-- Helper: on a nonempty path, `is_dir` holds exactly when the lookup
finds a directory. -/
theorem isDirFS_iff_lookup {fs : FS} {p : Path} (hp : p ≠ []) :
    isDirFS fs p = true ↔ lookupFS fs p = some Node.dir := by
  cases p with
  | nil => exact absurd rfl hp
  | cons a t =>
    rcases h : lookupFS fs (a :: t) with _ | node
    · simp [isDirFS, h]
    · cases node <;> simp [isDirFS, h]

/-- C8: on a well-formed filesystem, `shell_exists(n)` is true exactly
when a directory named `n` sits directly under the profiles root, and it
is false (the check is a total boolean, never an error) whenever the
profiles root itself is missing. -/
theorem shell_exists_iff_dir_under_profiles_root (cfg : FsConfig) (fs : FS)
    (n : String) (hwf : wfFS fs = true) :
    (cfg.shell_exists fs n = true ↔
      lookupFS fs (cfg.shell_root_path ++ [nm n]) = some Node.dir) ∧
    (lookupFS fs cfg.shell_root_path = none → cfg.shell_exists fs n = false) := by
  have h1 : cfg.shell_exists fs n = true ↔
      lookupFS fs (cfg.shell_root_path ++ [nm n]) = some Node.dir := by
    unfold FsConfig.shell_exists
    exact isDirFS_iff_lookup (by simp)
  refine ⟨h1, ?_⟩
  intro hroot
  cases hb : cfg.shell_exists fs n with
  | false => rfl
  | true =>
    exfalso
    have hlk := h1.mp hb
    have hmem := lookupFS_some_mem hlk
    have hall := List.all_eq_true.mp hwf _ hmem
    simp only [List.dropLast_concat] at hall
    have hsr : cfg.shell_root_path ≠ [] := by
      simp [FsConfig.shell_root_path]
    have hdir := (isDirFS_iff_lookup hsr).mp hall
    rw [hroot] at hdir
    cases hdir

/-- C8 witness: the characterization at a concrete well-formed store
holding one profile. -/
theorem shell_exists_witness :
    wfFS [([nm "r"], Node.dir), ([nm "r", nm "shells"], Node.dir),
      ([nm "r", nm "shells", nm "default"], Node.dir)] = true ∧
    (FsConfig.mk [nm "r"] none).shell_exists
      [([nm "r"], Node.dir), ([nm "r", nm "shells"], Node.dir),
        ([nm "r", nm "shells", nm "default"], Node.dir)] "default" = true :=
  ⟨by decide,
    (shell_exists_iff_dir_under_profiles_root (FsConfig.mk [nm "r"] none)
      [([nm "r"], Node.dir), ([nm "r", nm "shells"], Node.dir),
        ([nm "r", nm "shells", nm "default"], Node.dir)] "default"
      (by decide)).1.mpr (by decide)⟩

/-- Helper: `profChild sr` succeeds with name `s` exactly on the entry
that is a directory at `sr` followed by the single valid-text component
`s`. -/
theorem profChild_eq_some {sr : Path} {e : Path × Node} {s : String} :
    profChild sr e = some s ↔ e = (sr ++ [nm s], Node.dir) := by
  obtain ⟨p, n⟩ := e
  constructor
  · intro h
    unfold profChild at h
    split at h
    · rename_i s' rest heq
      by_cases hc : n = Node.dir ∧ rest.reverse = sr
      · rw [if_pos hc] at h
        injection h with hs
        subst hs
        obtain ⟨hn, hsr⟩ := hc
        subst hn
        have hp2 := congrArg List.reverse heq
        rw [List.reverse_reverse] at hp2
        rw [Prod.mk.injEq]
        refine ⟨?_, rfl⟩
        have hp3 : p = (Sum.inl s' :: rest).reverse := hp2
        rw [hp3]
        simp [nm, hsr]
      · rw [if_neg hc] at h
        simp at h
    · simp at h
  · intro h
    rw [Prod.mk.injEq] at h
    obtain ⟨hp, hn⟩ := h
    subst hp
    subst hn
    unfold profChild
    simp [List.reverse_append, nm]

/-- C3: `list_profiles` fails (with an I/O error) exactly when the
profiles root is not a readable directory; otherwise it returns a
lexicographically sorted list holding exactly the valid-text names of the
directories directly under the profiles root — plain files and non-text
names are excluded, and no individual child makes it fail. -/
theorem list_profiles_sorted_dir_children (cfg : FsConfig) (fs : FS) :
    (isDirFS fs cfg.shell_root_path = false →
      list_profiles cfg fs = Except.error IoErr.notFound) ∧
    (isDirFS fs cfg.shell_root_path = true →
      ∃ l, list_profiles cfg fs = Except.ok l ∧
        List.Sorted (fun a b => a ≤ b) l ∧
        ∀ s : String, s ∈ l ↔ (cfg.shell_root_path ++ [nm s], Node.dir) ∈ fs) := by
  constructor
  · intro h
    simp [list_profiles, h]
  · intro h
    refine ⟨List.insertionSort (fun a b => a ≤ b)
        (fs.filterMap (profChild cfg.shell_root_path)),
      by simp [list_profiles, h], List.sorted_insertionSort _ _, ?_⟩
    intro s
    rw [(List.perm_insertionSort (fun a b => a ≤ b) _).mem_iff, List.mem_filterMap]
    constructor
    · rintro ⟨e, he, hpc⟩
      rw [profChild_eq_some] at hpc
      rwa [hpc] at he
    · intro hmem
      exact ⟨_, hmem, profChild_eq_some.mpr rfl⟩

/-- C3 witness: the theorem applied to a profiles root holding a profile
directory `b`, a plain file `a`, and a directory with a non-text name. -/
theorem list_profiles_witness :
    isDirFS [([nm "r", nm "shells"], Node.dir),
      ([nm "r", nm "shells", nm "b"], Node.dir),
      ([nm "r", nm "shells", nm "a"], Node.file "z"),
      ([nm "r", nm "shells", Sum.inr 0], Node.dir)]
      (FsConfig.mk [nm "r"] none).shell_root_path = true ∧
    ∃ l, list_profiles (FsConfig.mk [nm "r"] none)
        [([nm "r", nm "shells"], Node.dir),
          ([nm "r", nm "shells", nm "b"], Node.dir),
          ([nm "r", nm "shells", nm "a"], Node.file "z"),
          ([nm "r", nm "shells", Sum.inr 0], Node.dir)] = Except.ok l ∧
      List.Sorted (fun a b => a ≤ b) l ∧
      ∀ s : String, s ∈ l ↔
        ((FsConfig.mk [nm "r"] none).shell_root_path ++ [nm s], Node.dir) ∈
          [([nm "r", nm "shells"], Node.dir),
            ([nm "r", nm "shells", nm "b"], Node.dir),
            ([nm "r", nm "shells", nm "a"], Node.file "z"),
            ([nm "r", nm "shells", Sum.inr 0], Node.dir)] :=
  ⟨by decide,
    (list_profiles_sorted_dir_children (FsConfig.mk [nm "r"] none)
      [([nm "r", nm "shells"], Node.dir),
        ([nm "r", nm "shells", nm "b"], Node.dir),
        ([nm "r", nm "shells", nm "a"], Node.file "z"),
        ([nm "r", nm "shells", Sum.inr 0], Node.dir)]).2 (by decide)⟩

end Hermit
